import Mathlib

/-!
Verification of the pokett-mobile shared-expense core.

The repository ships only the UI layer; the `LedgerEngine` component
(members, expense/settlement records, validated mutations, balance
computation) is specified but has no implementation under `src/`, so it is
modelled here directly from the specification (sections 3 and 4.1).  The
month-grouping projection (`GroupDetailScreen`), the create-group form
validation (`CreateGroupModal.handleSubmit`) and the HTTP response handler
(`handleResponse` in the api service) are translated from the source files.
-/

set_option maxHeartbeats 1000000

/-- ASCII whitespace characters stripped by JavaScript
`String.prototype.trim` on the text the app actually handles. -/
def isJsSpace (c : Char) : Bool :=
  c = ' ' || c = '\t' || c = '\n' || c = '\r'

/-- Model of JavaScript `String.prototype.trim`: drop leading and trailing
whitespace. -/
def jsTrim (s : String) : String :=
  ⟨((s.data.dropWhile isJsSpace).reverse.dropWhile isJsSpace).reverse⟩

/-- Modelled from the spec (section 3): a record is a real cost (`expense`)
or a balance-clearing payment (`settlement`). -/
inductive RecordKind where
  | expense
  | settlement
  deriving DecidableEq

/-- Modelled from the spec (sections 3 and 6): a ledger record.  Amounts are
integer minor currency units; the creation timestamp is modelled as a `Nat`
instant. -/
structure LedgerRecord where
  id : Nat
  kind : RecordKind
  description : String
  amount : Int
  payer : String
  splitBetween : List String
  createdAt : Nat
  deriving DecidableEq

/-- Modelled from the spec (section 4.1): the input of `addRecord`. -/
structure Draft where
  kind : RecordKind
  description : String
  amount : Int
  payer : String
  splitBetween : List String
  deriving DecidableEq

/-- Modelled from the spec (section 7): the error taxonomy of the engine. -/
inductive LedgerError where
  | invalidAmount
  | missingDescription
  | unknownMember
  | emptySplit
  | invalidSettlement
  | recordNotFound
  | invalidRecord
  deriving DecidableEq

/-- Modelled from the spec (section 2): the in-memory state of a group
ledger: member list, records, cached `totalExpenses`, and the next fresh
record identifier. -/
structure LedgerEngine where
  members : List String
  records : List LedgerRecord
  totalExpenses : Int
  nextId : Nat
  deriving DecidableEq

/-- Modelled from the spec: a fresh engine for a member list. -/
def mkEngine (members : List String) : LedgerEngine :=
  ⟨members, [], 0, 0⟩

/-- Modelled from the spec (section 4.1, `addRecord`): validation steps 1-6
in order, then append the stamped record and update `totalExpenses` (only
expenses count).  Failures return the engine unchanged together with the
typed error. -/
def addRecord (e : LedgerEngine) (d : Draft) (now : Nat) :
    LedgerEngine × Except LedgerError LedgerRecord :=
  if d.amount ≤ 0 then
    (e, .error .invalidAmount)
  else if d.kind = .expense ∧ jsTrim d.description = "" then
    (e, .error .missingDescription)
  else if d.payer ∉ e.members then
    (e, .error .unknownMember)
  else if d.splitBetween = [] then
    (e, .error .emptySplit)
  else if ¬ (∀ s ∈ d.splitBetween, s ∈ e.members) then
    (e, .error .unknownMember)
  else if d.kind = .settlement ∧ d.splitBetween.length ≠ 1 then
    (e, .error .invalidSettlement)
  else
    let r : LedgerRecord :=
      ⟨e.nextId, d.kind, d.description, d.amount, d.payer, d.splitBetween, now⟩
    (⟨e.members, e.records ++ [r],
      e.totalExpenses + (if d.kind = .expense then d.amount else 0),
      e.nextId + 1⟩, .ok r)

/-- Modelled from the spec (section 4.1, `removeRecord`): remove the record
with the given identifier, decrement `totalExpenses` when it was an expense,
and return the removed record; `recordNotFound` when absent. -/
def removeRecord (e : LedgerEngine) (rid : Nat) :
    LedgerEngine × Except LedgerError LedgerRecord :=
  match e.records.find? (fun r => r.id = rid) with
  | none => (e, .error .recordNotFound)
  | some r =>
      (⟨e.members, e.records.filter (fun x => x.id ≠ rid),
        e.totalExpenses - (if r.kind = .expense then r.amount else 0),
        e.nextId⟩, .ok r)

/-- Modelled from the spec (section 2): an engine built from a member list
by a sequence of `addRecord` calls (rejected drafts leave the state
untouched, as the engine reports typed errors without mutating). -/
def buildLedger (members : List String) (ds : List (Draft × Nat)) : LedgerEngine :=
  ds.foldl (fun e p => (addRecord e p.1 p.2).1) (mkEngine members)

/-- Modelled from the spec (section 3): the record invariants relative to
the owning group member set. -/
def ValidRecord (ms : List String) (r : LedgerRecord) : Prop :=
  0 < r.amount ∧ r.payer ∈ ms ∧ r.splitBetween ≠ [] ∧
    (∀ s ∈ r.splitBetween, s ∈ ms) ∧
    (r.kind = .settlement → r.splitBetween.length = 1)

lemma addRecord_state (e : LedgerEngine) (d : Draft) (now : Nat) :
    (addRecord e d now).1 = e ∨ ∃ r, (addRecord e d now).2 = Except.ok r := by
  unfold addRecord
  split
  · exact Or.inl rfl
  split
  · exact Or.inl rfl
  split
  · exact Or.inl rfl
  split
  · exact Or.inl rfl
  split
  · exact Or.inl rfl
  split
  · exact Or.inl rfl
  · exact Or.inr ⟨_, rfl⟩

lemma removeRecord_state (e : LedgerEngine) (rid : Nat) :
    (removeRecord e rid).1 = e ∨ ∃ r, (removeRecord e rid).2 = Except.ok r := by
  unfold removeRecord
  split
  · exact Or.inl rfl
  · exact Or.inr ⟨_, rfl⟩

lemma addRecord_members (e : LedgerEngine) (d : Draft) (now : Nat) :
    (addRecord e d now).1.members = e.members := by
  unfold addRecord
  split
  · rfl
  split
  · rfl
  split
  · rfl
  split
  · rfl
  split
  · rfl
  split
  · rfl
  · rfl

lemma addRecord_records (e : LedgerEngine) (d : Draft) (now : Nat) :
    (addRecord e d now).1.records = e.records ∨
      ∃ r, (addRecord e d now).1.records = e.records ++ [r] ∧
        ValidRecord e.members r := by
  unfold addRecord
  split
  · exact Or.inl rfl
  split
  · exact Or.inl rfl
  split
  · exact Or.inl rfl
  split
  · exact Or.inl rfl
  split
  · exact Or.inl rfl
  split
  · exact Or.inl rfl
  rename_i h1 h2 h3 h4 h5 h6
  refine Or.inr ⟨_, rfl, ?_, ?_, ?_, ?_, ?_⟩
  · show (0 : Int) < d.amount
    omega
  · exact not_not.mp h3
  · exact h4
  · exact not_not.mp h5
  · intro hk
    by_contra hlen
    exact h6 ⟨hk, hlen⟩

/-- Claim C8: every engine operation is atomic: whenever `addRecord` or
`removeRecord` reports a typed error, the engine state handed back to the
caller is exactly the state before the call. -/
theorem ledger_atomicity :
    (∀ (e : LedgerEngine) (d : Draft) (now : Nat) (err : LedgerError),
        (addRecord e d now).2 = .error err → (addRecord e d now).1 = e) ∧
    (∀ (e : LedgerEngine) (rid : Nat) (err : LedgerError),
        (removeRecord e rid).2 = .error err → (removeRecord e rid).1 = e) := by
  constructor
  · intro e d now err h
    rcases addRecord_state e d now with h1 | ⟨r, h2⟩
    · exact h1
    · rw [h] at h2
      exact absurd h2 (by simp)
  · intro e rid err h
    rcases removeRecord_state e rid with h1 | ⟨r, h2⟩
    · exact h1
    · rw [h] at h2
      exact absurd h2 (by simp)

/-- Witness for C8: a rejected draft (amount 0) and a lookup of a missing
identifier both leave a concrete engine untouched. -/
theorem ledger_atomicity_witness :
    (addRecord (mkEngine ["A", "B"]) ⟨.expense, "x", 0, "A", ["A"]⟩ 5).1 =
        mkEngine ["A", "B"] ∧
    (removeRecord (mkEngine ["A", "B"]) 7).1 = mkEngine ["A", "B"] :=
  ⟨ledger_atomicity.1 (mkEngine ["A", "B"]) ⟨.expense, "x", 0, "A", ["A"]⟩ 5
      .invalidAmount (by rfl),
   ledger_atomicity.2 (mkEngine ["A", "B"]) 7 .recordNotFound (by rfl)⟩

/-- Claim C5: for an expense draft whose amount is not positive, `addRecord`
fails with `InvalidAmountError` and leaves the engine unchanged, for every
description — including an empty or whitespace-only one — because the
amount check (validation step 1) precedes the description check (step 2). -/
theorem addRecord_invalid_amount_first (e : LedgerEngine) (d : Draft) (now : Nat)
    (hkind : d.kind = .expense) (hamt : ¬ (0 < d.amount)) :
    (addRecord e d now).2 = .error .invalidAmount ∧ (addRecord e d now).1 = e := by
  have hle : d.amount ≤ 0 := Int.not_lt.mp hamt
  unfold addRecord
  rw [if_pos hle]
  exact ⟨rfl, rfl⟩

/-- Witness for C5: a draft with amount 0 and empty description is rejected
with `invalidAmount`, not `missingDescription`. -/
theorem addRecord_invalid_amount_first_witness :
    (addRecord (mkEngine ["A"]) ⟨.expense, "", 0, "A", ["A"]⟩ 0).2 =
        .error .invalidAmount ∧
    (addRecord (mkEngine ["A"]) ⟨.expense, "", 0, "A", ["A"]⟩ 0).1 =
        mkEngine ["A"] :=
  addRecord_invalid_amount_first (mkEngine ["A"]) ⟨.expense, "", 0, "A", ["A"]⟩ 0
    (by decide) (by decide)

/-- Claim C6: `addRecord` with amount 0 fails with `InvalidAmountError` and
the ledger state is unchanged: the whole engine, hence in particular
`totalExpenses` and the record count, are unaffected. -/
theorem addRecord_zero_amount (e : LedgerEngine) (d : Draft) (now : Nat)
    (hz : d.amount = 0) :
    (addRecord e d now).2 = .error .invalidAmount ∧
    (addRecord e d now).1 = e ∧
    (addRecord e d now).1.totalExpenses = e.totalExpenses ∧
    (addRecord e d now).1.records.length = e.records.length := by
  have hle : d.amount ≤ 0 := le_of_eq hz
  unfold addRecord
  rw [if_pos hle]
  exact ⟨rfl, rfl, rfl, rfl⟩

/-- Witness for C6: adding a 0-amount draft to a concrete engine reports
`invalidAmount` and changes nothing. -/
theorem addRecord_zero_amount_witness :
    (addRecord (mkEngine ["A", "B"]) ⟨.expense, "tea", 0, "A", ["A", "B"]⟩ 1).2 =
        .error .invalidAmount ∧
    (addRecord (mkEngine ["A", "B"]) ⟨.expense, "tea", 0, "A", ["A", "B"]⟩ 1).1 =
        mkEngine ["A", "B"] ∧
    (addRecord (mkEngine ["A", "B"]) ⟨.expense, "tea", 0, "A", ["A", "B"]⟩ 1).1.totalExpenses =
        (mkEngine ["A", "B"]).totalExpenses ∧
    (addRecord (mkEngine ["A", "B"]) ⟨.expense, "tea", 0, "A", ["A", "B"]⟩ 1).1.records.length =
        (mkEngine ["A", "B"]).records.length :=
  addRecord_zero_amount (mkEngine ["A", "B"]) ⟨.expense, "tea", 0, "A", ["A", "B"]⟩ 1 rfl

/-- Modelled from the spec (section 4.1, rounding policy): equal shares of
`amount` minor units across `n` split members; the division remainder goes
one minor unit each to the first `amount % n` members in iteration order,
so the shares sum to `amount` exactly. -/
def shares (amount n : Nat) : List Nat :=
  (List.range n).map fun i => amount / n + (if i < amount % n then 1 else 0)

/-- Shares of a record, as integers, aligned with its split list. -/
def shareInts (r : LedgerRecord) : List Int :=
  (shares r.amount.toNat r.splitBetween.length).map Int.ofNat

/-- Split members paired with their shares. -/
def expensePairs (r : LedgerRecord) : List (String × Int) :=
  r.splitBetween.zip (shareInts r)

/-- Total amount debited to member `m` by expense record `r` (a member
occurring several times in the split list is debited once per occurrence,
matching the per-position share assignment). -/
def expenseDebit (r : LedgerRecord) (m : String) : Int :=
  (((expensePairs r).filter fun p => p.1 = m).map Prod.snd).sum

/-- Modelled from the spec (section 4.1, `computeBalances`): the signed
contribution of one record to member `m`.  An expense credits the payer the
full amount and debits each split member its share; a settlement credits
the sole split member (the recipient) and debits the payer. -/
def recordDelta (r : LedgerRecord) (m : String) : Int :=
  match r.kind with
  | .expense => (if r.payer = m then r.amount else 0) - expenseDebit r m
  | .settlement =>
      (if r.splitBetween.headD "" = m then r.amount else 0) -
        (if r.payer = m then r.amount else 0)

/-- Net balance of member `m` over a record list. -/
def balanceOf (records : List LedgerRecord) (m : String) : Int :=
  (records.map fun r => recordDelta r m).sum

/-- Modelled from the spec (section 4.1): per-member net amounts, one entry
per group member in member-list order. -/
def computeBalances (e : LedgerEngine) : List (String × Int) :=
  e.members.map fun m => (m, balanceOf e.records m)

lemma sumMapZero {α : Type} (l : List α) : (l.map fun _ => (0 : Int)).sum = 0 := by
  induction l with
  | nil => rfl
  | cons a t ih => simpa using ih

lemma sumMapAdd {α β : Type} [AddCommMonoid β] (l : List α) (f g : α → β) :
    (l.map fun x => f x + g x).sum = (l.map f).sum + (l.map g).sum := by
  induction l with
  | nil => simp
  | cons a t ih => simp [ih]; exact add_add_add_comm _ _ _ _

lemma sumMapSub {α : Type} (l : List α) (f g : α → Int) :
    (l.map fun x => f x - g x).sum = (l.map f).sum - (l.map g).sum := by
  induction l with
  | nil => simp
  | cons a t ih => simp [ih]; omega

lemma sumIteZero (ms : List String) (a : String) (v : Int) (ha : a ∉ ms) :
    (ms.map fun m => if a = m then v else 0).sum = 0 := by
  induction ms with
  | nil => rfl
  | cons b t ih =>
    have hab : a ≠ b := fun h => ha (h ▸ List.mem_cons_self b t)
    have hat : a ∉ t := fun h => ha (List.mem_cons_of_mem b h)
    simp [hab, ih hat]

lemma sumIteSingle (ms : List String) (a : String) (v : Int)
    (hnd : ms.Nodup) (ha : a ∈ ms) :
    (ms.map fun m => if a = m then v else 0).sum = v := by
  induction ms with
  | nil => cases ha
  | cons b t ih =>
    rcases List.mem_cons.mp ha with hab | hat
    · subst hab
      have hnt : a ∉ t := (List.nodup_cons.mp hnd).1
      simp [sumIteZero t a v hnt]
    · have hab : a ≠ b := by
        rintro rfl
        exact (List.nodup_cons.mp hnd).1 hat
      simp [hab, ih (List.nodup_cons.mp hnd).2 hat]

lemma sumFilterFst (ps : List (String × Int)) (ms : List String)
    (hnd : ms.Nodup) (hmem : ∀ p ∈ ps, p.1 ∈ ms) :
    (ms.map fun m => ((ps.filter fun p => p.1 = m).map Prod.snd).sum).sum =
      (ps.map Prod.snd).sum := by
  induction ps with
  | nil => simpa using sumMapZero ms
  | cons q t ih =>
    have key : ∀ m : String,
        (((q :: t).filter fun p => p.1 = m).map Prod.snd).sum =
          (if q.1 = m then q.2 else 0) +
            ((t.filter fun p => p.1 = m).map Prod.snd).sum := by
      intro m
      by_cases h : q.1 = m
      · simp [List.filter_cons, h]
      · simp [List.filter_cons, h]
    have hq : q.1 ∈ ms := hmem q (List.mem_cons_self q t)
    have ht : ∀ p ∈ t, p.1 ∈ ms := fun p hp => hmem p (List.mem_cons_of_mem q hp)
    calc (ms.map fun m => (((q :: t).filter fun p => p.1 = m).map Prod.snd).sum).sum
        = (ms.map fun m => (if q.1 = m then q.2 else 0) +
            ((t.filter fun p => p.1 = m).map Prod.snd).sum).sum := by
          simp only [key]
      _ = (ms.map fun m => if q.1 = m then q.2 else 0).sum +
            (ms.map fun m => ((t.filter fun p => p.1 = m).map Prod.snd).sum).sum :=
          sumMapAdd ms _ _
      _ = q.2 + (t.map Prod.snd).sum := by
          rw [sumIteSingle ms q.1 q.2 hnd hq, ih ht]
      _ = ((q :: t).map Prod.snd).sum := by simp

lemma sumIndicator (n r : Nat) :
    ((List.range n).map fun i => if i < r then 1 else 0).sum = min r n := by
  induction n with
  | zero => simp
  | succ k ih =>
    rw [List.range_succ, List.map_append, List.sum_append, ih]
    by_cases h : k < r
    · simp [h]
      omega
    · simp [h]
      omega

lemma sumMapConstNat {α : Type} (l : List α) (c : Nat) :
    (l.map fun _ => c).sum = l.length * c := by
  induction l with
  | nil => simp
  | cons a t ih =>
    simp [ih, Nat.succ_mul]
    omega

lemma shares_sum (amount n : Nat) (hn : 0 < n) : (shares amount n).sum = amount := by
  unfold shares
  rw [sumMapAdd]
  rw [sumMapConstNat (List.range n) (amount / n), List.length_range, sumIndicator]
  have hr : amount % n < n := Nat.mod_lt amount hn
  have := Nat.div_add_mod amount n
  omega

lemma sumMapCast (l : List Nat) : (l.map Int.ofNat).sum = Int.ofNat l.sum := by
  induction l with
  | nil => rfl
  | cons a t ih =>
    rw [List.map_cons, List.sum_cons, List.sum_cons, ih]
    exact (Int.ofNat_add a t.sum).symm

lemma headD_mem {α : Type} (l : List α) (d : α) (h : l ≠ []) : l.headD d ∈ l := by
  cases l with
  | nil => exact absurd rfl h
  | cons a t => simp

lemma shareInts_length (r : LedgerRecord) :
    (shareInts r).length = r.splitBetween.length := by
  unfold shareInts shares
  rw [List.length_map, List.length_map, List.length_range]

lemma shareInts_sum (r : LedgerRecord) (hamt : 0 < r.amount)
    (hne : r.splitBetween ≠ []) : (shareInts r).sum = r.amount := by
  unfold shareInts
  rw [sumMapCast, shares_sum _ _ (List.length_pos.mpr hne), Int.ofNat_eq_natCast]
  exact Int.toNat_of_nonneg (le_of_lt hamt)

lemma expenseDebit_total (ms : List String) (r : LedgerRecord)
    (hnd : ms.Nodup) (hamt : 0 < r.amount) (hne : r.splitBetween ≠ [])
    (hsubset : ∀ s ∈ r.splitBetween, s ∈ ms) :
    (ms.map fun m => expenseDebit r m).sum = r.amount := by
  unfold expenseDebit
  rw [sumFilterFst (expensePairs r) ms hnd]
  · unfold expensePairs
    rw [List.map_snd_zip _ _ (le_of_eq (shareInts_length r))]
    exact shareInts_sum r hamt hne
  · intro p hp
    exact hsubset p.1 (List.of_mem_zip hp).1

lemma recordDelta_sum (ms : List String) (r : LedgerRecord)
    (hnd : ms.Nodup) (hv : ValidRecord ms r) :
    (ms.map fun m => recordDelta r m).sum = 0 := by
  obtain ⟨hamt, hpayer, hne, hsubset, hsettle⟩ := hv
  cases hk : r.kind with
  | expense =>
    have hdelta : ∀ m, recordDelta r m =
        (if r.payer = m then r.amount else 0) - expenseDebit r m := by
      intro m
      simp [recordDelta, hk]
    simp only [hdelta]
    rw [sumMapSub, sumIteSingle ms r.payer r.amount hnd hpayer,
      expenseDebit_total ms r hnd hamt hne hsubset]
    omega
  | settlement =>
    have hdelta : ∀ m, recordDelta r m =
        (if r.splitBetween.headD "" = m then r.amount else 0) -
          (if r.payer = m then r.amount else 0) := by
      intro m
      simp [recordDelta, hk]
    have hrec : r.splitBetween.headD "" ∈ ms :=
      hsubset _ (headD_mem r.splitBetween "" hne)
    simp only [hdelta]
    rw [sumMapSub, sumIteSingle ms _ r.amount hnd hrec,
      sumIteSingle ms r.payer r.amount hnd hpayer]
    omega

lemma balanceOf_sum (ms : List String) (records : List LedgerRecord)
    (hnd : ms.Nodup) (hval : ∀ r ∈ records, ValidRecord ms r) :
    (ms.map fun m => balanceOf records m).sum = 0 := by
  induction records with
  | nil => simpa [balanceOf] using sumMapZero ms
  | cons r t ih =>
    have hdelta : ∀ m, balanceOf (r :: t) m = recordDelta r m + balanceOf t m := by
      intro m
      simp [balanceOf]
    simp only [hdelta]
    rw [sumMapAdd, recordDelta_sum ms r hnd (hval r (List.mem_cons_self r t)),
      ih (fun x hx => hval x (List.mem_cons_of_mem r hx))]
    omega

lemma foldl_members (ds : List (Draft × Nat)) (e : LedgerEngine) :
    (ds.foldl (fun e p => (addRecord e p.1 p.2).1) e).members = e.members := by
  induction ds generalizing e with
  | nil => rfl
  | cons p t ih =>
    rw [List.foldl_cons, ih, addRecord_members]

lemma foldl_valid (ds : List (Draft × Nat)) (e : LedgerEngine)
    (hval : ∀ r ∈ e.records, ValidRecord e.members r) :
    ∀ r ∈ (ds.foldl (fun e p => (addRecord e p.1 p.2).1) e).records,
      ValidRecord e.members r := by
  induction ds generalizing e with
  | nil => exact hval
  | cons p t ih =>
    rw [List.foldl_cons]
    have hmem := addRecord_members e p.1 p.2
    have hnext : ∀ r ∈ (addRecord e p.1 p.2).1.records,
        ValidRecord (addRecord e p.1 p.2).1.members r := by
      rw [hmem]
      rcases addRecord_records e p.1 p.2 with h | ⟨r0, hr0, hv0⟩
      · rw [h]
        exact hval
      · rw [hr0]
        intro r hr
        rcases List.mem_append.mp hr with h1 | h2
        · exact hval r h1
        · rw [List.mem_singleton.mp h2]
          exact hv0
    have := ih (addRecord e p.1 p.2).1 hnext
    rw [hmem] at this
    exact this

/-- Claim C1: for every ledger built from a member list by any sequence of
expense and settlement additions (only the valid ones are accepted by
`addRecord`), the per-member net amounts returned by `computeBalances` sum
to zero across all members. -/
theorem computeBalances_conservation (members : List String)
    (ds : List (Draft × Nat)) (hnd : members.Nodup) :
    ((computeBalances (buildLedger members ds)).map Prod.snd).sum = 0 := by
  have hm : (buildLedger members ds).members = members := foldl_members ds (mkEngine members)
  have hv : ∀ r ∈ (buildLedger members ds).records, ValidRecord members r := by
    have := foldl_valid ds (mkEngine members) (by intro r hr; cases hr)
    exact this
  unfold computeBalances
  rw [List.map_map, hm]
  have : (Prod.snd ∘ fun m => (m, balanceOf (buildLedger members ds).records m)) =
      fun m => balanceOf (buildLedger members ds).records m := rfl
  rw [this]
  exact balanceOf_sum members _ hnd hv

/-- Witness for C1: a concrete two-member ledger with one expense and one
settlement balances to zero. -/
theorem computeBalances_conservation_witness :
    ((computeBalances (buildLedger ["A", "B"]
      [(⟨.expense, "lunch", 900, "A", ["A", "B"]⟩, 3),
       (⟨.settlement, "", 450, "B", ["A"]⟩, 4)])).map Prod.snd).sum = 0 :=
  computeBalances_conservation ["A", "B"]
    [(⟨.expense, "lunch", 900, "A", ["A", "B"]⟩, 3),
     (⟨.settlement, "", 450, "B", ["A"]⟩, 4)] (by decide)

/-- Modelled from the spec (section 8 example): members A, B, C with one
expense of 10000 minor units paid by A and split across all three. -/
def exampleLedger : LedgerEngine :=
  buildLedger ["A", "B", "C"] [(⟨.expense, "trip", 10000, "A", ["A", "B", "C"]⟩, 0)]

/-- Counterexample to claim C2: under the stated rounding rule (the
remainder goes one minor unit each to the FIRST `amount % splitCount`
members of the split set), the 10000/3 example yields A: +6666,
B: -3333, C: -3333 — not the claimed A: +6667, B: -3333, C: -3334, which
would require assigning the extra unit to the last member. -/
theorem remainder_example_counterexample :
    computeBalances exampleLedger = [("A", 6666), ("B", -3333), ("C", -3333)] ∧
    computeBalances exampleLedger ≠ [("A", 6667), ("B", -3333), ("C", -3334)] := by
  exact ⟨by decide, by decide⟩

/-- Claim C2 (amended): each split member is debited
`floor(amount / splitCount)` plus one extra minor unit for each of the
first `amount % splitCount` positions in iteration order, so the shares
always sum to exactly `amount`; for the 10000/3 example the balances are
A: +6666, B: -3333, C: -3333, summing to 0. -/
theorem remainder_distribution_amended :
    (∀ amount n, 0 < n → (shares amount n).sum = amount) ∧
    computeBalances exampleLedger = [("A", 6666), ("B", -3333), ("C", -3333)] ∧
    ((computeBalances exampleLedger).map Prod.snd).sum = 0 :=
  ⟨shares_sum, by decide, by decide⟩

/-- Witness for the amended C2: concrete exact split of 10000 into 3. -/
theorem remainder_distribution_amended_witness :
    (shares 10000 3).sum = 10000 :=
  remainder_distribution_amended.1 10000 3 (by decide)

lemma balanceOf_append (l₁ l₂ : List LedgerRecord) (m : String) :
    balanceOf (l₁ ++ l₂) m = balanceOf l₁ m + balanceOf l₂ m := by
  unfold balanceOf
  rw [List.map_append, List.sum_append]

lemma addRecord_ok (e : LedgerEngine) (d : Draft) (now : Nat)
    (e' : LedgerEngine) (rec : LedgerRecord)
    (h : addRecord e d now = (e', Except.ok rec)) :
    rec = ⟨e.nextId, d.kind, d.description, d.amount, d.payer, d.splitBetween, now⟩ ∧
    e' = ⟨e.members, e.records ++ [rec],
      e.totalExpenses + (if d.kind = .expense then d.amount else 0),
      e.nextId + 1⟩ := by
  unfold addRecord at h
  split at h
  · simp at h
  split at h
  · simp at h
  split at h
  · simp at h
  split at h
  · simp at h
  split at h
  · simp at h
  split at h
  · simp at h
  simp only [Prod.mk.injEq, Except.ok.injEq] at h
  obtain ⟨he, hr⟩ := h
  subst hr
  exact ⟨rfl, he.symm⟩

lemma find?_append_fresh (l : List LedgerRecord) (r : LedgerRecord)
    (p : LedgerRecord → Bool) (hl : ∀ x ∈ l, p x = false) (hr : p r = true) :
    (l ++ [r]).find? p = some r := by
  induction l with
  | nil => simp [List.find?, hr]
  | cons a t ih =>
    have ha : p a = false := hl a (List.mem_cons_self a t)
    rw [List.cons_append, List.find?_cons]
    simp only [ha]
    exact ih (fun x hx => hl x (List.mem_cons_of_mem a hx))

/-- Claim C7: successfully adding a settlement of amount A, payer P and
split set `[R]` (with R distinct from P and the records carrying only
already-issued identifiers) credits R by A, debits P by A, and leaves
`totalExpenses` unchanged; removing the created settlement again leaves
`totalExpenses` unchanged. -/
theorem settlement_balance_transfer (e : LedgerEngine) (d : Draft) (now : Nat)
    (R : String) (e' : LedgerEngine) (rec : LedgerRecord)
    (hkind : d.kind = .settlement) (hsplit : d.splitBetween = [R])
    (hne : d.payer ≠ R)
    (hfresh : ∀ x ∈ e.records, x.id ≠ e.nextId)
    (hok : addRecord e d now = (e', Except.ok rec)) :
    balanceOf e'.records R = balanceOf e.records R + d.amount ∧
    balanceOf e'.records d.payer = balanceOf e.records d.payer - d.amount ∧
    e'.totalExpenses = e.totalExpenses ∧
    (removeRecord e' rec.id).1.totalExpenses = e.totalExpenses := by
  obtain ⟨hrec, he'⟩ := addRecord_ok e d now e' rec hok
  subst hrec
  subst he'
  have hdR : recordDelta
      ⟨e.nextId, d.kind, d.description, d.amount, d.payer, d.splitBetween, now⟩ R =
      d.amount := by
    simp [recordDelta, hkind, hsplit, hne]
  have hdP : recordDelta
      ⟨e.nextId, d.kind, d.description, d.amount, d.payer, d.splitBetween, now⟩ d.payer =
      -d.amount := by
    have : R ≠ d.payer := fun h => hne h.symm
    simp [recordDelta, hkind, hsplit, this]
  refine ⟨?_, ?_, ?_, ?_⟩
  · rw [balanceOf_append]
    simp [balanceOf, hdR]
  · rw [balanceOf_append]
    simp only [balanceOf, List.map_cons, List.map_nil, List.sum_cons, List.sum_nil]
    rw [hdP]
    omega
  · simp [hkind]
  · unfold removeRecord
    have hfind : (e.records ++
        [(⟨e.nextId, d.kind, d.description, d.amount, d.payer, d.splitBetween, now⟩ :
          LedgerRecord)]).find?
        (fun x => x.id = e.nextId) = some
          ⟨e.nextId, d.kind, d.description, d.amount, d.payer, d.splitBetween, now⟩ := by
      apply find?_append_fresh
      · intro x hx
        exact decide_eq_false (hfresh x hx)
      · exact decide_eq_true rfl
    simp only [hfind]
    simp [hkind]

/-- Spec section 8 settlement example: a fresh two-member engine, a 5000
minor-unit settlement from payer B to recipient A, and the resulting
engine and record. -/
def settleEngine : LedgerEngine := mkEngine ["A", "B"]

/-- Draft of the example settlement. -/
def settleDraft : Draft := ⟨.settlement, "", 5000, "B", ["A"]⟩

/-- Record created for the example settlement. -/
def settleRec : LedgerRecord := ⟨0, .settlement, "", 5000, "B", ["A"], 0⟩

/-- Engine state after the example settlement is added. -/
def settleEngine' : LedgerEngine := ⟨["A", "B"], [settleRec], 0, 1⟩

/-- Witness for C7: the 5000 minor-unit settlement from B to A raises the
balance of A by 5000, lowers the balance of B by 5000, and leaves
`totalExpenses` untouched by both the addition and the removal. -/
theorem settlement_balance_transfer_witness :
    balanceOf settleEngine'.records "A" = balanceOf settleEngine.records "A" + 5000 ∧
    balanceOf settleEngine'.records "B" = balanceOf settleEngine.records "B" - 5000 ∧
    settleEngine'.totalExpenses = settleEngine.totalExpenses ∧
    (removeRecord settleEngine' settleRec.id).1.totalExpenses = settleEngine.totalExpenses :=
  settlement_balance_transfer settleEngine settleDraft 0 "A" settleEngine' settleRec
    rfl rfl (by decide) (by simp [settleEngine, mkEngine]) (by rfl)

/-- The `Expense` shape consumed by `GroupDetailScreen`
(src/app/types/expense.ts).  The ISO-8601 `createdAt` string is modelled by
its calendar (year, month) truncation, which is all that
`groupExpensesByMonth` and the month sort consume; day-level order within a
month is carried by the position in the input list. -/
structure UIExpense where
  id : String
  groupId : String
  description : String
  amount : Int
  paidBy : String
  splitBetween : List String
  type : RecordKind
  year : Nat
  month : Nat
  deriving DecidableEq

/-- Month keys.  `toLocaleString` renders the (year, month) of `createdAt`
as an English month-name/year string; month names are injective on 1-12,
so the string key is modelled by the (year, month) pair itself. -/
abbrev MonthKey := Nat × Nat

/-- Month key of an expense. -/
def monthKey (e : UIExpense) : MonthKey := (e.year, e.month)

/-- One step of the reduce inside `groupExpensesByMonth`
(src/unnamed/part_000, lines 75-88): push the expense onto its month
bucket, creating the bucket at the end when absent (JavaScript object keys
keep first-insertion order). -/
def addToBuckets : List (MonthKey × List UIExpense) → UIExpense →
    List (MonthKey × List UIExpense)
  | [], e => [(monthKey e, [e])]
  | (k, v) :: rest, e =>
      if k = monthKey e then (k, v ++ [e]) :: rest
      else (k, v) :: addToBuckets rest e

/-- Translation of `groupExpensesByMonth` (src/unnamed/part_000): a reduce
over the expense list bucketing each record under its month key. -/
def groupExpensesByMonth (expenses : List UIExpense) :
    List (MonthKey × List UIExpense) :=
  expenses.foldl addToBuckets []

/-- The comparator at the render site (src/unnamed/part_000, lines
185-191): `new Date(b[0]).getTime() - new Date(a[0]).getTime()` orders
keys by the timestamp of the month start, i.e. by descending lexicographic
(year, month) — under the standard English locale the rendered
month-name/year key parses back to the first instant of that month. -/
def keyGE (a b : MonthKey) : Bool :=
  b.1 < a.1 || (a.1 = b.1 && b.2 ≤ a.2)

/-- Insertion step of the model of `Array.prototype.sort`. -/
def insertBucketDesc (x : MonthKey × List UIExpense) :
    List (MonthKey × List UIExpense) → List (MonthKey × List UIExpense)
  | [] => [x]
  | y :: ys => if keyGE x.1 y.1 then x :: y :: ys else y :: insertBucketDesc x ys

/-- Model of the `.sort` call: with a consistent comparator the result is
the sorted permutation of the input, and the bucket keys are pairwise
distinct, so the sorted order is unique and an insertion sort produces it
exactly. -/
def sortBucketsDesc (l : List (MonthKey × List UIExpense)) :
    List (MonthKey × List UIExpense) :=
  l.foldr insertBucketDesc []

/-- The composed projection the screen renders, named `groupByMonth` in the
spec: `Object.entries(groupExpensesByMonth(expenses)).sort(...)`. -/
def groupByMonth (expenses : List UIExpense) : List (MonthKey × List UIExpense) :=
  sortBucketsDesc (groupExpensesByMonth expenses)

/-- Bucket held under key `k`, empty when the key is absent. -/
def bucketAt (bs : List (MonthKey × List UIExpense)) (k : MonthKey) :
    List UIExpense :=
  ((bs.find? (fun p => p.1 = k)).map Prod.snd).getD []

lemma bucketAt_add (bs : List (MonthKey × List UIExpense)) (e : UIExpense)
    (k : MonthKey) :
    bucketAt (addToBuckets bs e) k =
      bucketAt bs k ++ (if monthKey e = k then [e] else []) := by
  induction bs with
  | nil =>
    by_cases h : monthKey e = k
    · subst h
      simp [addToBuckets, bucketAt, List.find?]
    · simp [addToBuckets, bucketAt, List.find?, h]
  | cons p rest ih =>
    obtain ⟨k', v⟩ := p
    by_cases h1 : k' = monthKey e
    · subst h1
      by_cases h2 : monthKey e = k
      · subst h2
        simp [addToBuckets, bucketAt, List.find?_cons]
      · simp [addToBuckets, bucketAt, List.find?_cons, h2]
    · by_cases h2 : k' = k
      · subst h2
        have h3 : monthKey e ≠ k' := fun hx => h1 hx.symm
        simp [addToBuckets, bucketAt, List.find?_cons, h1, h3]
      · simp only [addToBuckets, if_neg h1]
        have lhs : bucketAt ((k', v) :: addToBuckets rest e) k =
            bucketAt (addToBuckets rest e) k := by
          simp [bucketAt, List.find?_cons, h2]
        have rhs : bucketAt ((k', v) :: rest) k = bucketAt rest k := by
          simp [bucketAt, List.find?_cons, h2]
        rw [lhs, rhs, ih]

lemma keys_addToBuckets (bs : List (MonthKey × List UIExpense)) (e : UIExpense) :
    (addToBuckets bs e).map Prod.fst =
      if monthKey e ∈ bs.map Prod.fst then bs.map Prod.fst
      else bs.map Prod.fst ++ [monthKey e] := by
  induction bs with
  | nil => simp [addToBuckets]
  | cons p rest ih =>
    obtain ⟨k', v⟩ := p
    by_cases h1 : k' = monthKey e
    · subst h1
      simp [addToBuckets]
    · have h1' : monthKey e ≠ k' := fun hx => h1 hx.symm
      by_cases h2 : monthKey e ∈ rest.map Prod.fst
      · simp [addToBuckets, h1, h1', h2, ih]
      · simp [addToBuckets, h1, h1', h2, ih]

lemma keys_addToBuckets_nodup (bs : List (MonthKey × List UIExpense))
    (e : UIExpense) (h : (bs.map Prod.fst).Nodup) :
    ((addToBuckets bs e).map Prod.fst).Nodup := by
  rw [keys_addToBuckets]
  by_cases hm : monthKey e ∈ bs.map Prod.fst
  · rw [if_pos hm]
    exact h
  · rw [if_neg hm]
    refine List.Nodup.append h (List.nodup_singleton _) ?_
    intro a ha hb
    rw [List.mem_singleton.mp hb] at ha
    exact hm ha

lemma keys_foldl_nodup (es : List UIExpense)
    (bs : List (MonthKey × List UIExpense)) (h : (bs.map Prod.fst).Nodup) :
    (((es.foldl addToBuckets bs)).map Prod.fst).Nodup := by
  induction es generalizing bs with
  | nil => exact h
  | cons e t ih =>
    rw [List.foldl_cons]
    exact ih (addToBuckets bs e) (keys_addToBuckets_nodup bs e h)

lemma groupKeys_nodup (es : List UIExpense) :
    ((groupExpensesByMonth es).map Prod.fst).Nodup :=
  keys_foldl_nodup es [] List.nodup_nil

lemma bucketAt_foldl (es : List UIExpense) (done : List UIExpense)
    (bs : List (MonthKey × List UIExpense))
    (h : ∀ k, bucketAt bs k = done.filter (fun e => monthKey e = k)) :
    ∀ k, bucketAt (es.foldl addToBuckets bs) k =
      (done ++ es).filter (fun e => monthKey e = k) := by
  induction es generalizing done bs with
  | nil =>
    intro k
    rw [List.append_nil]
    exact h k
  | cons e t ih =>
    rw [List.foldl_cons]
    have hstep : ∀ k, bucketAt (addToBuckets bs e) k =
        (done ++ [e]).filter (fun x => monthKey x = k) := by
      intro k
      rw [bucketAt_add, h k, List.filter_append, List.filter_singleton]
      by_cases hk : monthKey e = k
      · simp [hk]
      · simp [hk]
    have := ih (done ++ [e]) (addToBuckets bs e) hstep
    intro k
    rw [this k]
    congr 1
    simp

lemma bucketAt_group (es : List UIExpense) (k : MonthKey) :
    bucketAt (groupExpensesByMonth es) k =
      es.filter (fun e => monthKey e = k) :=
  bucketAt_foldl es [] [] (fun _ => rfl) k

lemma eq_bucketAt_of_mem (bs : List (MonthKey × List UIExpense))
    (hnd : (bs.map Prod.fst).Nodup) (k : MonthKey) (b : List UIExpense)
    (h : (k, b) ∈ bs) : b = bucketAt bs k := by
  induction bs with
  | nil => cases h
  | cons p rest ih =>
    obtain ⟨k', v⟩ := p
    rcases List.mem_cons.mp h with h1 | h2
    · obtain ⟨hk, hv⟩ := Prod.mk.injEq .. ▸ h1.symm
      subst hk
      rw [hv]
      simp [bucketAt, List.find?_cons]
    · have hk' : k' ≠ k := by
        intro hx
        subst hx
        have : k' ∈ rest.map Prod.fst := List.mem_map_of_mem Prod.fst h2
        exact (List.nodup_cons.mp (by simpa using hnd)).1 this
      have : bucketAt ((k', v) :: rest) k = bucketAt rest k := by
        simp [bucketAt, List.find?_cons, hk']
      rw [this]
      exact ih (List.nodup_cons.mp (by simpa using hnd)).2 h2

lemma keyGE_total (a b : MonthKey) : keyGE a b = true ∨ keyGE b a = true := by
  simp only [keyGE, Bool.or_eq_true, Bool.and_eq_true, decide_eq_true_eq]
  omega

lemma keyGE_trans (a b c : MonthKey) (h1 : keyGE a b = true)
    (h2 : keyGE b c = true) : keyGE a c = true := by
  simp only [keyGE, Bool.or_eq_true, Bool.and_eq_true, decide_eq_true_eq] at *
  omega

lemma insertBucketDesc_perm (x : MonthKey × List UIExpense)
    (l : List (MonthKey × List UIExpense)) :
    List.Perm (insertBucketDesc x l) (x :: l) := by
  induction l with
  | nil => exact List.Perm.refl _
  | cons y ys ih =>
    unfold insertBucketDesc
    split
    · exact List.Perm.refl _
    · exact (ih.cons y).trans (List.Perm.swap x y ys)

lemma sortBucketsDesc_perm (l : List (MonthKey × List UIExpense)) :
    List.Perm (sortBucketsDesc l) l := by
  induction l with
  | nil => exact List.Perm.refl _
  | cons x t ih =>
    have : sortBucketsDesc (x :: t) = insertBucketDesc x (sortBucketsDesc t) := rfl
    rw [this]
    exact (insertBucketDesc_perm x (sortBucketsDesc t)).trans (ih.cons x)

lemma insertBucketDesc_sorted (x : MonthKey × List UIExpense)
    (l : List (MonthKey × List UIExpense))
    (h : List.Pairwise (fun a b => keyGE a.1 b.1 = true) l) :
    List.Pairwise (fun a b => keyGE a.1 b.1 = true) (insertBucketDesc x l) := by
  induction l with
  | nil => simp [insertBucketDesc]
  | cons y ys ih =>
    unfold insertBucketDesc
    split
    · rename_i hxy
      refine List.Pairwise.cons ?_ h
      intro z hz
      rcases List.mem_cons.mp hz with hzy | hzys
      · rw [hzy]
        exact hxy
      · exact keyGE_trans x.1 y.1 z.1 hxy ((List.pairwise_cons.mp h).1 z hzys)
    · rename_i hxy
      have hyx : keyGE y.1 x.1 = true := by
        rcases keyGE_total x.1 y.1 with h1 | h1
        · exact absurd h1 hxy
        · exact h1
      obtain ⟨hy, hys⟩ := List.pairwise_cons.mp h
      refine List.Pairwise.cons ?_ (ih hys)
      intro z hz
      rcases List.mem_cons.mp ((insertBucketDesc_perm x ys).mem_iff.mp hz) with hzx | hzys
      · rw [hzx]
        exact hyx
      · exact hy z hzys

lemma sortBucketsDesc_sorted (l : List (MonthKey × List UIExpense)) :
    List.Pairwise (fun a b => keyGE a.1 b.1 = true) (sortBucketsDesc l) := by
  induction l with
  | nil => exact List.Pairwise.nil
  | cons x t ih => exact insertBucketDesc_sorted x (sortBucketsDesc t) ih

/-- Claim C3: `groupByMonth` produces its month buckets in strictly
descending (year, month) order — most recent month first — and each bucket
holds exactly the records of its month, in original input order (the
grouping reduce pushes in input order and the sort does not touch bucket
contents). -/
theorem groupByMonth_ordering (es : List UIExpense) :
    List.Pairwise
      (fun p q : MonthKey × List UIExpense =>
        q.1.1 < p.1.1 ∨ (p.1.1 = q.1.1 ∧ q.1.2 < p.1.2)) (groupByMonth es) ∧
    (∀ (k : MonthKey) (b : List UIExpense), (k, b) ∈ groupByMonth es →
      b = es.filter (fun e => monthKey e = k)) := by
  constructor
  · have hs := sortBucketsDesc_sorted (groupExpensesByMonth es)
    have hnd : ((groupByMonth es).map Prod.fst).Nodup :=
      ((sortBucketsDesc_perm (groupExpensesByMonth es)).map Prod.fst).nodup_iff.mpr
        (groupKeys_nodup es)
    have hne : List.Pairwise
        (fun p q : MonthKey × List UIExpense => p.1 ≠ q.1) (groupByMonth es) :=
      List.pairwise_map.mp hnd
    refine (hs.and hne).imp ?_
    intro a b hab
    obtain ⟨hge, hne'⟩ := hab
    simp only [keyGE, Bool.or_eq_true, Bool.and_eq_true, decide_eq_true_eq] at hge
    rcases hge with h | ⟨h1, h2⟩
    · exact Or.inl h
    · refine Or.inr ⟨h1, ?_⟩
      have hsnd : a.1.2 ≠ b.1.2 := fun h => hne' (Prod.ext_iff.mpr ⟨h1, h⟩)
      omega
  · intro k b hmem
    have hmem' : (k, b) ∈ groupExpensesByMonth es :=
      (sortBucketsDesc_perm (groupExpensesByMonth es)).mem_iff.mp hmem
    rw [eq_bucketAt_of_mem _ (groupKeys_nodup es) k b hmem', bucketAt_group]

lemma flatten_addToBuckets (bs : List (MonthKey × List UIExpense))
    (e : UIExpense) :
    List.Perm (((addToBuckets bs e).map Prod.snd).flatten)
      ((bs.map Prod.snd).flatten ++ [e]) := by
  induction bs with
  | nil => simp [addToBuckets]
  | cons p rest ih =>
    obtain ⟨k, v⟩ := p
    unfold addToBuckets
    split
    · simp only [List.map_cons, List.flatten_cons, List.append_assoc,
        List.singleton_append]
      exact List.Perm.append_left v
        (List.perm_append_singleton e ((rest.map Prod.snd).flatten)).symm
    · simp only [List.map_cons, List.flatten_cons]
      have := ih.append_left v
      rw [← List.append_assoc] at this
      exact this

lemma flatten_foldl (es : List UIExpense)
    (bs : List (MonthKey × List UIExpense)) :
    List.Perm (((es.foldl addToBuckets bs).map Prod.snd).flatten)
      ((bs.map Prod.snd).flatten ++ es) := by
  induction es generalizing bs with
  | nil => simp
  | cons e t ih =>
    rw [List.foldl_cons]
    refine (ih (addToBuckets bs e)).trans ?_
    have := (flatten_addToBuckets bs e).append_right t
    rw [List.append_assoc, List.singleton_append] at this
    exact this

/-- Claim C4: `groupByMonth` partitions the records — concatenating all
buckets reproduces the input record list up to permutation, with no
duplicates and no omissions — and applying the projection twice to the same
ledger state yields identical output (it is a pure function of the record
list). -/
theorem groupByMonth_partition (es : List UIExpense) :
    List.Perm (((groupByMonth es).map Prod.snd).flatten) es ∧
    (∀ es', es = es' → groupByMonth es = groupByMonth es') := by
  constructor
  · have h1 : List.Perm (((groupByMonth es).map Prod.snd).flatten)
        (((groupExpensesByMonth es).map Prod.snd).flatten) :=
      ((sortBucketsDesc_perm (groupExpensesByMonth es)).map Prod.snd).flatten
    refine h1.trans ?_
    have := flatten_foldl es []
    simpa using this
  · intro es' h
    rw [h]

/-- A concrete March 2024 expense for the grouping witnesses. -/
def uiExpMar : UIExpense := ⟨"e1", "g", "hotel", 100, "A", ["A"], .expense, 2024, 3⟩

/-- A concrete February 2024 expense for the grouping witnesses. -/
def uiExpFeb : UIExpense := ⟨"e2", "g", "taxi", 50, "A", ["A"], .expense, 2024, 2⟩

/-- Witness for C3: in a concrete two-month ledger the March 2024 bucket of
`groupByMonth` consists of exactly the March records in input order. -/
theorem groupByMonth_ordering_witness :
    [uiExpMar] = ([uiExpFeb, uiExpMar].filter
      (fun e => monthKey e = ((2024, 3) : MonthKey))) :=
  (groupByMonth_ordering [uiExpFeb, uiExpMar]).2 (2024, 3) [uiExpMar] (by decide)

/-- Witness for C4: re-running the projection on the same concrete ledger
state reproduces the same output. -/
theorem groupByMonth_partition_witness :
    groupByMonth [uiExpFeb, uiExpMar] = groupByMonth [uiExpFeb, uiExpMar] :=
  (groupByMonth_partition [uiExpFeb, uiExpMar]).2 [uiExpFeb, uiExpMar] rfl

/-- Form state of `CreateGroupModal` (src/unnamed/part_004): the entered
group name, the selected member names, and the error banner. -/
structure CreateGroupForm where
  name : String
  selectedMembers : List String
  error : Option String
  deriving DecidableEq

/-- Translation of `handleSubmit` in `CreateGroupModal`
(src/unnamed/part_004, lines 90-105): reject an empty trimmed name, then
fewer than two selected members, setting the error banner and leaving the
entered fields alone; otherwise emit the `onSubmit` payload of trimmed name
plus members and reset the form. -/
def handleSubmit (f : CreateGroupForm) :
    CreateGroupForm × Option (String × List String) :=
  if jsTrim f.name = "" then
    (⟨f.name, f.selectedMembers, some "Please enter a group name"⟩, none)
  else if f.selectedMembers.length < 2 then
    (⟨f.name, f.selectedMembers, some "Please add at least 2 members"⟩, none)
  else
    (⟨"", [], none⟩, some (jsTrim f.name, f.selectedMembers))

/-- Claim C9: the create-group form submits exactly when the trimmed name
is non-empty and at least two members are selected; on every violating
input no creation call is emitted, an error message is set, and the entered
name and member selection are unchanged. -/
theorem createGroup_submit_guard (f : CreateGroupForm) :
    ((handleSubmit f).2.isSome ↔
      (jsTrim f.name ≠ "" ∧ 2 ≤ f.selectedMembers.length)) ∧
    ((handleSubmit f).2 = none →
      (handleSubmit f).1.name = f.name ∧
      (handleSubmit f).1.selectedMembers = f.selectedMembers ∧
      (handleSubmit f).1.error.isSome = true) := by
  unfold handleSubmit
  by_cases h1 : jsTrim f.name = ""
  · rw [if_pos h1]
    refine ⟨?_, ?_⟩
    · simp [h1]
    · intro _
      exact ⟨rfl, rfl, rfl⟩
  · rw [if_neg h1]
    by_cases h2 : f.selectedMembers.length < 2
    · rw [if_pos h2]
      refine ⟨?_, ?_⟩
      · simp only [Option.isSome_none, Bool.false_eq_true, false_iff]
        intro hc
        omega
      · intro _
        exact ⟨rfl, rfl, rfl⟩
    · rw [if_neg h2]
      refine ⟨?_, ?_⟩
      · simp only [Option.isSome_some, true_iff]
        exact ⟨h1, by omega⟩
      · intro hc
        cases hc

/-- Witness for C9: a form with an empty name and two members is rejected
with its entered state preserved; the hypothesis of the guard is discharged
on the concrete rejected submission. -/
theorem createGroup_submit_guard_witness :
    (handleSubmit ⟨"  ", ["A", "B"], none⟩).1.name = "  " ∧
    (handleSubmit ⟨"  ", ["A", "B"], none⟩).1.selectedMembers = ["A", "B"] ∧
    (handleSubmit ⟨"  ", ["A", "B"], none⟩).1.error.isSome = true :=
  (createGroup_submit_guard ⟨"  ", ["A", "B"], none⟩).2 (by rfl)

/-- Minimal JSON value model for the api layer. -/
inductive Json where
  | null
  | bool (b : Bool)
  | num (n : Int)
  | str (s : String)
  | arr (elems : List Json)
  | obj (fields : List (String × Json))

/-- First field bound to `key` in a JSON object field list. -/
def lookupField : List (String × Json) → String → Option Json
  | [], _ => none
  | (k, v) :: rest, key => if k = key then some v else lookupField rest key

/-- The message thrown on a non-ok response:
`error.message || 'Something went wrong'`.  A missing, non-string or empty
`message` falls back to the default (JavaScript string coercion of other
truthy values is not modelled; only the throw/return structure is at
stake in the handler). -/
def errMessage (j : Json) : String :=
  match j with
  | .obj fields =>
      match lookupField fields "message" with
      | some (.str s) => if s = "" then "Something went wrong" else s
      | _ => "Something went wrong"
  | _ => "Something went wrong"

/-- Does the first character list start with the second? -/
def leadsWith : List Char → List Char → Bool
  | _, [] => true
  | [], _ :: _ => false
  | a :: as, b :: bs => a = b && leadsWith as bs

/-- Does the first character list contain the second as a contiguous run? -/
def includesChars : List Char → List Char → Bool
  | [], needle => needle.isEmpty
  | hay@(_ :: rest), needle => leadsWith hay needle || includesChars rest needle

/-- Model of JavaScript `String.prototype.includes`. -/
def strIncludes (hay needle : String) : Bool :=
  includesChars hay.data needle.data

/-- A fetch `Response` as consumed by `handleResponse`
(src/unnamed/part_003): HTTP status, optional `content-type` header, and
the parsed JSON body (`response.json()` is modelled as total, handing back
the already-parsed body). -/
structure ApiResponse where
  status : Nat
  contentType : Option String
  body : Json

/-- `response.ok`: the status lies in the inclusive range 200-299. -/
def responseOk (r : ApiResponse) : Bool :=
  200 ≤ r.status && r.status ≤ 299

/-- Translation of `handleResponse` (src/unnamed/part_003, lines 13-32):
throw on a non-ok status with the body's message; return `{}` for
204 No Content; return the parsed body when the `content-type` header
includes `application/json`; return `{}` for any other ok response. -/
def handleResponse (r : ApiResponse) : Except String Json :=
  if responseOk r = false then .error (errMessage r.body)
  else if r.status = 204 then .ok (Json.obj [])
  else
    match r.contentType with
    | some ct =>
        if strIncludes ct "application/json" then .ok r.body else .ok (Json.obj [])
    | none => .ok (Json.obj [])

/-- Is the handler outcome a thrown error? -/
def isThrown : Except String Json → Bool
  | .error _ => true
  | .ok _ => false

lemma handleResponse_ok_cases (r : ApiResponse) (hok : responseOk r = true) :
    ∃ j, handleResponse r = .ok j := by
  unfold handleResponse
  rw [if_neg (by simp [hok])]
  by_cases h204 : r.status = 204
  · rw [if_pos h204]
    exact ⟨_, rfl⟩
  · rw [if_neg h204]
    cases hct : r.contentType with
    | some ct =>
      by_cases hinc : strIncludes ct "application/json" = true
      · exact ⟨r.body, by simp [hinc]⟩
      · exact ⟨Json.obj [], by simp [hinc]⟩
    | none => exact ⟨_, rfl⟩

/-- Claim C10: `handleResponse` throws exactly on non-ok statuses; on every
ok response it returns the parsed JSON body precisely when the status is
not 204 and the content-type header includes `application/json`, and the
empty object in every other case — so 204 No Content and non-JSON bodies
never throw. -/
theorem handleResponse_contract (r : ApiResponse) :
    (isThrown (handleResponse r) = true ↔ responseOk r = false) ∧
    (responseOk r = true →
      (r.status ≠ 204 → ∀ ct, r.contentType = some ct →
          strIncludes ct "application/json" = true →
          handleResponse r = .ok r.body) ∧
      (r.status = 204 ∨ r.contentType = none ∨
          (∃ ct, r.contentType = some ct ∧
            strIncludes ct "application/json" = false) →
        handleResponse r = .ok (Json.obj []))) := by
  refine ⟨⟨?_, ?_⟩, ?_⟩
  · intro hth
    cases hr : responseOk r
    · rfl
    · obtain ⟨j, hj⟩ := handleResponse_ok_cases r hr
      rw [hj] at hth
      cases hth
  · intro hok'
    unfold handleResponse
    rw [if_pos hok']
    rfl
  · intro hok
    constructor
    · intro h204 ct hct hinc
      unfold handleResponse
      rw [if_neg (by simp [hok]), if_neg h204, hct]
      simp [hinc]
    · intro hcase
      unfold handleResponse
      rw [if_neg (by simp [hok])]
      rcases hcase with h204 | hnone | ⟨ct, hct, hinc⟩
      · rw [if_pos h204]
      · by_cases h204 : r.status = 204
        · rw [if_pos h204]
        · rw [if_neg h204, hnone]
      · by_cases h204 : r.status = 204
        · rw [if_pos h204]
        · rw [if_neg h204, hct]
          simp [hinc]

/-- Witness for C10: a 200 JSON response returns its parsed body, and a 204
response returns the empty object. -/
theorem handleResponse_contract_witness :
    handleResponse ⟨200, some "application/json", Json.num 5⟩ = .ok (Json.num 5) ∧
    handleResponse ⟨204, none, Json.null⟩ = .ok (Json.obj []) :=
  ⟨((handleResponse_contract ⟨200, some "application/json", Json.num 5⟩).2
      (by rfl)).1 (by decide) "application/json" rfl (by rfl),
   ((handleResponse_contract ⟨204, none, Json.null⟩).2 (by rfl)).2 (Or.inl rfl)⟩
